import Mathlib

/-!
Verification of the consensus-serde bridge (`src/bitcoin/src/consensus/serde.rs`).

The Rust module is embedded shallowly: bytes are `Nat` values (< 256 where it
matters), strings are `List Char` (with `String` only for error messages),
fallible operations return `Except`, and the `panic!`/`debug_assert` behaviour
is modelled by explicit outcome types parameterised over a `debug : Bool` flag
standing for `cfg(debug_assertions)`.
-/

namespace ConsensusSerde

/-! ### Decimal rendering of naturals (Rust `Display` for integers) -/

/-- Decimal digit character for `d < 10`. -/
def decDigit (d : Nat) : Char := Char.ofNat (48 + d)

/-- Digits of `n` (empty for 0); `fuel`-structured so that it reduces
definitionally. `fuel ≥ n` suffices since `n / 10 < n` for `n > 0`. -/
def natToCharsAux : Nat → Nat → List Char
  | 0, _ => []
  | fuel + 1, n => if n = 0 then [] else natToCharsAux fuel (n / 10) ++ [decDigit (n % 10)]

/-- Decimal rendering of a natural number, as Rust's `{}` formatting of an
unsigned integer produces it. -/
def natToChars (n : Nat) : List Char := if n = 0 then ['0'] else natToCharsAux n n

/-- `natToChars` as a `String`. -/
def natToString (n : Nat) : String := String.mk (natToChars n)

/-! ### Hex digit rendering (Rust `{:02x}` formatting) -/

/-- Lower-case hex digit character for `d < 16`. -/
def hexDigitLower (d : Nat) : Char :=
  if d < 10 then Char.ofNat (48 + d) else Char.ofNat (87 + d)

/-- Upper-case hex digit character for `d < 16`. -/
def hexDigitUpper (d : Nat) : Char :=
  if d < 10 then Char.ofNat (48 + d) else Char.ofNat (55 + d)

/-- `{:02x}` of a byte (`b < 256`): exactly two lower-case hex digits. -/
def byteToHexLower (b : Nat) : List Char := [hexDigitLower (b / 16 % 16), hexDigitLower (b % 16)]

/-! ### The serde error model

`serde::de::Error` values constructed by this module.  Only the constructors
the source uses are modelled: `custom` (with its message rendered to a
string), `invalid_value` (with the `Unexpected` payload and the rendered
expectation) and `invalid_length`. -/

/-- Model of `serde::de::Unexpected`, restricted to the variants the source
constructs. -/
inductive Unexpected where
  | bytes (bs : List Nat)
  | unsigned (n : Nat)
  | char (c : Char)
  deriving DecidableEq, Repr

/-- Model of a `serde::de::Error` value as the source builds it. -/
inductive SerdeErr where
  | custom (msg : String)
  | invalidValue (unexp : Unexpected) (exp : String)
  | invalidLength (len : Nat) (exp : String)
  deriving DecidableEq, Repr

/-- A `[u8; 4]` checksum array. -/
structure Bytes4 where
  b0 : Nat
  b1 : Nat
  b2 : Nat
  b3 : Nat
  deriving DecidableEq, Repr

/-- The four bytes as a list, as `Unexpected::Bytes(&actual)` exposes them. -/
def Bytes4.toList (b : Bytes4) : List Nat := [b.b0, b.b1, b.b2, b.b3]

/-- Model of `consensus::ParseError`; the variants and their payloads are read
off the exhaustive `match` in `consensus_error_into_serde`. -/
inductive ParseError where
  | missingData
  | oversizedVectorAllocation (requested max : Nat)
  | invalidChecksum (expected actual : Bytes4)
  | nonMinimalVarInt
  | parseFailed (msg : String)
  | unsupportedSegwitFlag (flag : Nat)
  deriving DecidableEq, Repr

/-- Embedding of `consensus_error_into_serde` (serde.rs lines 362–382): maps
each native `ParseError` variant into the serde error vocabulary. -/
def consensus_error_into_serde : ParseError → SerdeErr
  | .missingData => .custom "missing data (early end of file or slice too short)"
  | .oversizedVectorAllocation requested max =>
      .custom ("the requested allocation of " ++ natToString requested ++
        " items exceeds maximum of " ++ natToString max)
  | .invalidChecksum expected actual =>
      .invalidValue (.bytes actual.toList)
        (String.mk ("checksum ".toList ++ byteToHexLower expected.b0 ++
          byteToHexLower expected.b1 ++ byteToHexLower expected.b2 ++
          byteToHexLower expected.b3))
  | .nonMinimalVarInt => .custom "compact size was not encoded minimally"
  | .parseFailed msg => .custom msg
  | .unsupportedSegwitFlag flag =>
      .invalidValue (.unsigned flag) "segwit version 1 flag"

/-- Boolean contiguous-sublist check, used to state "message contains the
literal substring". -/
def listSub [DecidableEq α] : List α → List α → Bool
  | pat, l =>
    match l with
    | [] => decide (pat = [])
    | _ :: tl => pat.isPrefixOf l || listSub pat tl

/-! ### Hex decoding (serde.rs `mod hex`, decode side)

The concrete digit-level codec lives in the external `hex` crate
(`HexToBytesIter`), which the spec treats as an opaque strategy conforming to
its §4.2 contract; it is modelled here from that contract. -/

/-- Is `c` an ASCII hex digit (`0-9`, `a-f`, `A-F`)? -/
def isHexDigitChar (c : Char) : Bool :=
  (48 ≤ c.toNat && c.toNat ≤ 57) || (97 ≤ c.toNat && c.toNat ≤ 102) ||
    (65 ≤ c.toNat && c.toNat ≤ 70)

/-- Numeric value of an ASCII hex digit. -/
def hexVal (c : Char) : Nat :=
  if 48 ≤ c.toNat && c.toNat ≤ 57 then c.toNat - 48
  else if 97 ≤ c.toNat && c.toNat ≤ 102 then c.toNat - 87
  else c.toNat - 55

namespace hex

/-- Model of `hex::OddLengthStringError`: carries the actual input length. -/
structure OddLengthStringError where
  length : Nat
  deriving DecidableEq, Repr

/-- Model of `hex::InvalidCharError`: carries the offending character as its
original code point. -/
structure InvalidCharError where
  invalid_char : Char
  deriving DecidableEq, Repr

/-- Modelled from the spec: `hex::HexToBytesIter::new` (external hex crate)
validates that the input length is even before any byte is decoded; an odd
length fails construction with an error carrying the actual length. On
success the iterator ranges over the input characters. -/
def HexToBytesIter.new (s : List Char) : Except OddLengthStringError (List Char) :=
  if s.length % 2 = 0 then .ok s else .error ⟨s.length⟩

/-- serde.rs `hex::DecodeInitError`: newtype over the hex crate's odd-length
error. -/
structure DecodeInitError where
  err : OddLengthStringError
  deriving DecidableEq, Repr

/-- serde.rs `hex::DecodeError`: newtype over the hex crate's invalid-character
error. -/
structure DecodeError where
  err : InvalidCharError
  deriving DecidableEq, Repr

/-- Embedding of `Decoder::new` (serde.rs lines 113–120): wraps
`HexToBytesIter::new`, wrapping its error in `DecodeInitError`. -/
def Decoder.new (s : List Char) : Except DecodeInitError (List Char) :=
  match HexToBytesIter.new s with
  | .ok iter => .ok iter
  | .error e => .error ⟨e⟩

/-- Modelled from the spec: the hex crate's byte iterator (as re-exposed by
`Iterator for Decoder`, serde.rs lines 122–128) decodes two ASCII hex digits
per step into one byte, in input order, lazily; at the first character that is
not a hex digit (checking the first character of a pair before the second) it
fails once with that character and decodes no further bytes. The result is
the list of bytes decoded before the first error, and the offending character
if there is one. A trailing lone character is unreachable because
construction validated evenness. -/
def decodePairs : List Char → List Nat × Option Char
  | [] => ([], none)
  | [_] => ([], none)
  | c1 :: c2 :: rest =>
    if isHexDigitChar c1 then
      if isHexDigitChar c2 then
        let r := decodePairs rest
        ((hexVal c1 * 16 + hexVal c2) :: r.1, r.2)
      else ([], some c2)
    else ([], some c1)

/-- Embedding of `IntoDeError for DecodeInitError` (serde.rs lines 138–142). -/
def DecodeInitError.into_de_error (e : DecodeInitError) : SerdeErr :=
  .invalidLength e.err.length "an even number of ASCII-encoded hex digits"

/-- Embedding of `IntoDeError for DecodeError` (serde.rs lines 144–155): an
ASCII offending character is reported as a character, any other as its
unsigned code point; either way the original, non-normalized value. -/
def DecodeError.into_de_error (e : DecodeError) : SerdeErr :=
  if e.err.invalid_char.toNat < 128 then
    .invalidValue (.char e.err.invalid_char) "an ASCII-encoded hex digit"
  else
    .invalidValue (.unsigned e.err.invalid_char.toNat) "an ASCII-encoded hex digit"

end hex

/-- All characters form valid hex-digit pairs (even length, every character a
hex digit). -/
def validHexPairs : List Char → Bool
  | [] => true
  | [_] => false
  | c1 :: c2 :: r => isHexDigitChar c1 && isHexDigitChar c2 && validHexPairs r

/-- The byte values of a list of hex-digit pairs. -/
def pairVals : List Char → List Nat
  | c1 :: c2 :: r => (hexVal c1 * 16 + hexVal c2) :: pairVals r
  | _ => []

/-! ### Hex encoding (serde.rs `mod hex`, encode side)

The buffer-level operations (`is_full`, `put_bytes_min`, `as_str`, `clear`)
belong to the external hex crate's `BufEncoder`, which the spec treats as an
opaque strategy conforming to its §4.1 contract; they are modelled from that
contract. The loop structure of `encode_chunk` and the `flush` body are
embedded from serde.rs itself. -/

/-- The case selected by the `Lower`/`Upper` marker types (serde.rs lines
49–67). -/
inductive HexCase where
  | lower
  | upper
  deriving DecidableEq, Repr

/-- Hex digit in the selected case. -/
def hexDigitIn : HexCase → Nat → Char
  | .lower, d => hexDigitLower d
  | .upper, d => hexDigitUpper d

/-- The two hex characters of one byte (`b < 256`) in the selected case. -/
def byteToHexIn (cs : HexCase) (b : Nat) : List Char :=
  [hexDigitIn cs (b / 16 % 16), hexDigitIn cs (b % 16)]

/-- Hex rendering of a whole byte sequence. -/
def hexChars (cs : HexCase) (bytes : List Nat) : List Char :=
  (bytes.map (byteToHexIn cs)).flatten

/-- serde.rs line 70: the fixed buffer capacity, in characters. -/
def HEX_BUF_SIZE : Nat := 512

/-- State of the hex `Encoder` together with its downstream `fmt::Write`
sink: `buf` holds the buffered hex characters (capacity `HEX_BUF_SIZE`),
`pieces` records the text of each `write_str` call made to the sink, in
order. -/
structure EncState where
  pieces : List (List Char)
  buf : List Char
  deriving DecidableEq, Repr

/-- Embedding of `Encoder::flush` (serde.rs lines 93–97): writes the whole
buffer content (`as_str`) to the sink and clears the buffer. -/
def flushEnc (st : EncState) : EncState :=
  { pieces := st.pieces ++ [st.buf], buf := [] }

/-- `BufEncoder::put_bytes_min`, modelled from the spec (§4.1): encodes as
many whole bytes as fit in the remaining buffer space (two characters each,
never splitting a byte's two characters) and returns the remaining bytes. -/
def putBytesMin (cs : HexCase) (st : EncState) (bytes : List Nat) :
    EncState × List Nat :=
  let n := min ((HEX_BUF_SIZE - st.buf.length) / 2) bytes.length
  ({ st with buf := st.buf ++ hexChars cs (bytes.take n) }, bytes.drop n)

/-- Embedding of `Encoder::encode_chunk` (serde.rs lines 83–91): while bytes
remain, flush if the buffer is full (`is_full`, modelled as being at
capacity), then `put_bytes_min`. Structured on `fuel` so that it reduces
definitionally; from reachable states every iteration consumes at least one
byte (the buffer length is even and below capacity after the conditional
flush), so `fuel = bytes.length` suffices and the fuel-exhausted and
no-progress branches are unreachable. -/
def encodeChunkAux (cs : HexCase) : Nat → EncState → List Nat → EncState
  | _, st, [] => st
  | 0, st, _ :: _ => st
  | fuel + 1, st, b :: bs =>
    let st1 := if st.buf.length = HEX_BUF_SIZE then flushEnc st else st
    let p := putBytesMin cs st1 (b :: bs)
    if p.2.length < (b :: bs).length then encodeChunkAux cs fuel p.1 p.2 else st1

/-- `Encoder::encode_chunk` at adequate fuel. -/
def encodeChunk (cs : HexCase) (st : EncState) (bytes : List Nat) : EncState :=
  encodeChunkAux cs bytes.length st bytes

/-- The encode half of `DisplayWrapper::fmt`'s success path (serde.rs lines
160–187): the native encoder's successive `write` calls each become one
`encode_chunk` (via `IoWrapper::write`, lines 267–276), followed by exactly
one final `flush` (`actually_flush`, line 264/181). -/
def encodePipeline (cs : HexCase) (chunks : List (List Nat)) : EncState :=
  flushEnc (chunks.foldl (encodeChunk cs) ⟨[], []⟩)

/-- The single string `collect_str` receives: the concatenation of all
`write_str` pieces. -/
def serializeHRChars (cs : HexCase) (chunks : List (List Nat)) : List Char :=
  (encodePipeline cs chunks).pieces.flatten

/-! ### Consensus decode error unification and the `IterReader` driver
(serde.rs lines 384–408, 475–509) -/

/-- Model of `consensus::DecodeError<E>`; the variants and payloads are read
off the exhaustive matches in `unify` and `into_de_error`. -/
inductive DecodeError (ε : Type) where
  | other (e : ε)
  | unconsumed
  | parse (p : ParseError)
  deriving DecidableEq, Repr

/-- Embedding of `DecodeError::unify` (serde.rs lines 384–395). -/
def DecodeError.unify : DecodeError SerdeErr → SerdeErr
  | .other e => e
  | .unconsumed => .custom "got more bytes than expected"
  | .parse e => consensus_error_into_serde e

/-- Embedding of `IntoDeError for DecodeError<E>` (serde.rs lines 397–408),
instantiated at the hex decoder's error type, the only instantiation the
human-readable path uses. -/
def DecodeError.into_de_error : DecodeError hex.DecodeError → SerdeErr
  | .other e => e.into_de_error
  | .unconsumed => .custom "got more bytes than expected"
  | .parse e => consensus_error_into_serde e

/-- Modelled from the spec: `IterReader::decode` (lives in
`crate::consensus`, outside this file) drives the native decoder over the
byte sequence and then requires the input to be fully consumed — an
unconsumed tail after a successful native decode is the "more bytes than
expected" error (`DecodeError::Unconsumed`), and a native parse failure is
passed through as `DecodeError::Parse`. The native decoder is modelled as a
function from the byte stream to the decoded value plus the unconsumed
remainder (the interface of `Decodable::consensus_decode`, spec §6). -/
def IterReader.decode {α ε : Type}
    (dec : List Nat → Except ParseError (α × List Nat)) (bytes : List Nat) :
    Except (DecodeError ε) α :=
  match dec bytes with
  | .ok (v, []) => .ok v
  | .ok (_, _ :: _) => .error .unconsumed
  | .error e => .error (.parse e)

/-- Embedding of `HRVisitor::visit_str` (serde.rs lines 484–487) composed
with the deserialize dispatch: construct the hex decoder over the string
(odd length fails via `DecodeInitError::into_de_error`), run the byte
iterator (`decodePairs`), drive `IterReader::decode` over the decoded bytes,
and unify failures via `IntoDeError`. Modelled from the spec where
`IterReader` is involved: decoding stops at the first invalid character and
that failure is surfaced as `DecodeError::Other` carrying the hex decode
error. -/
def HRVisitor.visit_str {α : Type}
    (dec : List Nat → Except ParseError (α × List Nat)) (s : List Char) :
    Except SerdeErr α :=
  match hex.Decoder.new s with
  | .error e => .error e.into_de_error
  | .ok cs =>
    match hex.decodePairs cs with
    | (_, some c) => .error (DecodeError.into_de_error (.other ⟨⟨c⟩⟩))
    | (bytes, none) =>
      match IterReader.decode (ε := hex.DecodeError) dec bytes with
      | .ok v => .ok v
      | .error e => .error e.into_de_error

/-- Embedding of `BinVisitor::visit_seq` (serde.rs lines 499–501) over a
sequence access that yields the given bytes: drive `IterReader::decode` over
the element iterator and unify failures via `DecodeError::unify`. -/
def BinVisitor.visit_seq {α : Type}
    (dec : List Nat → Except ParseError (α × List Nat)) (bytes : List Nat) :
    Except SerdeErr α :=
  match IterReader.decode (ε := SerdeErr) dec bytes with
  | .ok v => .ok v
  | .error e => .error e.unify

/-- State of `BinWriter` for an always-succeeding sequence sink: the sequence
elements written so far. -/
structure BinWriterSt where
  elems : List Nat
  deriving DecidableEq, Repr

/-- Embedding of `BinWriter::write_all` (serde.rs lines 340–348) when every
`serialize_element` call succeeds: each byte becomes one sequence element, in
order. -/
def BinWriter.write_all (st : BinWriterSt) (buf : List Nat) : BinWriterSt :=
  ⟨st.elems ++ buf⟩

/-- The binary serialize path of `With::serialize` on its happy path: the
native encoder's successive write calls append their bytes element by
element. -/
def serializeBinElems (chunks : List (List Nat)) : List Nat :=
  (chunks.foldl BinWriter.write_all ⟨[]⟩).elems

/-! ### Dispatch outcome models (serde.rs lines 160–187 and 428–458)

The `panic!`/`debug_assert` behaviour is modelled by outcome types; the
`debug : Bool` parameter stands for `cfg(debug_assertions)`. -/

/-- The `kind()` of the `io::Error` the native encoder reports: `Other` or
anything else. -/
inductive IoErrKind where
  | other
  | unexpectedKind
  deriving DecidableEq, Repr

/-- The observable shape of the native encoder's `io::Error`: its kind and
whether `get_ref()` carries a cause object. -/
structure IoErrM where
  kind : IoErrKind
  hasRef : Bool
  deriving DecidableEq, Repr

/-- Outcome of `DisplayWrapper::fmt`. -/
inductive FmtOutcome where
  | ok
  | fmtError
  | aborts
  deriving DecidableEq, Repr

/-- Embedding of `DisplayWrapper::fmt` (serde.rs lines 160–187) at the
outcome level. `encResult` is the native encoder's result (`none` for
success), `was_error` the error-tracking writer's flag as accumulated during
the encode (meaningful in debug builds only), `flushOk` whether the final
flush's downstream write succeeds. On a native-encoder error, debug builds
panic unless the error is exactly `ErrorKind::Other` with no cause and the
flag is set; release builds swallow the mismatch and return `fmt::Error`. On
success the final `actually_flush` runs: its `write_str` goes through
`ErrorTrackingWriter`, whose `assert_no_error` aborts in debug builds when
the flag is already set; a flush failure sets the flag (so the subsequent
`assert_was_error` passes) and surfaces as `fmt::Error`. -/
def DisplayWrapper.fmt (debug : Bool) (encResult : Option IoErrM)
    (was_error : Bool) (flushOk : Bool) : FmtOutcome :=
  match encResult with
  | some e =>
    if debug && (decide (e.kind ≠ IoErrKind.other) || e.hasRef || !was_error) then
      .aborts
    else .fmtError
  | none =>
    if debug && was_error then .aborts
    else
      let was2 := was_error || (debug && !flushOk)
      if flushOk then .ok
      else if debug && !was2 then .aborts
      else .fmtError

/-- Outcome of the binary branch of `With::serialize`. -/
inductive BinOutcome where
  | ok
  | serErr
  | aborts
  deriving DecidableEq, Repr

/-- Embedding of the binary branch of `With::serialize` (serde.rs lines
438–457) at the outcome level: `encResult` is the native encoder's result
(`none` for success), `recorded` whether `writer.error` holds a recorded
sink failure, `endOk` whether `serializer.end()` succeeds. The `panic!` arms
are unconditional in the source — they fire in debug and release builds
alike — so the outcome does not depend on `debug`. -/
def With.serializeBin (_debug : Bool) (encResult : Option IoErrM)
    (recorded : Bool) (endOk : Bool) : BinOutcome :=
  match encResult, recorded with
  | none, false => if endOk then .ok else .serErr
  | none, true => .aborts
  | some e, true =>
    if e.kind = IoErrKind.other && !e.hasRef then .serErr else .aborts
  | some _, false => .aborts

/-! ### The error-tracking writer (serde.rs lines 189–252, 267–276) -/

/-- Outcome of one adapter-level write. -/
inductive WriteOutcome where
  | ok
  | err
  | aborted
  deriving DecidableEq, Repr

/-- Embedding of `write_str` through `ErrorTrackingWriter` (serde.rs lines
240–245): `assert_no_error` aborts in debug builds when the flag is already
set; otherwise the call is forwarded to the downstream sink
(`downstreamFails` tells whether that sink fails this call) and `check_err`
records a failure by or-ing it into the flag (debug builds only, and never
clearing it). Returns the outcome and the updated flag. -/
def ErrorTrackingWriter.write_str (debug : Bool) (was_error : Bool)
    (downstreamFails : Bool) : WriteOutcome × Bool :=
  if debug && was_error then (.aborted, was_error)
  else ((if downstreamFails then .err else .ok),
    was_error || (debug && downstreamFails))

/-- A run of consecutive `write_str` calls through the adapter: `downstream`
lists, for each attempted call, whether the downstream sink fails it.
Returns the final flag, or `none` if an assertion aborted the process. -/
def ErrorTrackingWriter.run (debug : Bool) : Bool → List Bool → Option Bool
  | flag, [] => some flag
  | flag, d :: ds =>
    match ErrorTrackingWriter.write_str debug flag d with
    | (.aborted, _) => none
    | (_, flag') => ErrorTrackingWriter.run debug flag' ds

/-- Embedding of the failure-reporting side of `IoWrapper::write` (serde.rs
lines 268–276): when `encode_chunk` reports failure, `assert_was_error`
aborts in debug builds unless the flag is set; otherwise a generic I/O error
is reported upward. -/
def IoWrapper.reportWriteErr (debug : Bool) (was_error : Bool) : WriteOutcome :=
  if debug && !was_error then .aborted else .err

/-- Embedding of `IoWrapper::flush` (serde.rs lines 277–278): flushes are
intentionally ignored — unconditionally `Ok(())`, touching neither the
encoder buffer nor the sink (the adapter state is returned unchanged). -/
def IoWrapper.flush (st : EncState) : Except Unit Unit × EncState := (.ok (), st)

/-- Embedding of `BinWriter::flush` (serde.rs line 350): unconditionally
`Ok(())`, touching nothing. -/
def BinWriter.flush (st : BinWriterSt) : Except Unit Unit × BinWriterSt := (.ok (), st)

/-- One-byte native decoder used as a concrete witness instance: reads one
byte from the stream, fails on empty input. -/
def decOneByte : List Nat → Except ParseError (Nat × List Nat)
  | [] => .error .missingData
  | b :: rest => .ok (b, rest)

/-- One-byte native encoder matching `decOneByte`. -/
def encOneByte (n : Nat) : List Nat := [n]

end ConsensusSerde

namespace ConsensusSerde

/-- C2: the error-unification function translates a checksum mismatch with
expected bytes `[0xDE,0xAD,0xBE,0xEF]` and actual bytes `[0,0,0,0]` into an
invalid-value error whose reported actual value is `[0,0,0,0]` and whose
expected description contains the literal substring "checksum deadbeef"
(8 lower-case hex digits), and translates an oversized length request
`(1000000, 4000)` into a message containing both literal numbers. -/
theorem c2_error_unification_payloads :
    (consensus_error_into_serde
        (.invalidChecksum ⟨0xDE, 0xAD, 0xBE, 0xEF⟩ ⟨0, 0, 0, 0⟩) =
      .invalidValue (.bytes [0, 0, 0, 0]) "checksum deadbeef") ∧
    listSub "checksum deadbeef".toList "checksum deadbeef".toList = true ∧
    (consensus_error_into_serde (.oversizedVectorAllocation 1000000 4000) =
      .custom "the requested allocation of 1000000 items exceeds maximum of 4000") ∧
    listSub "1000000".toList
      "the requested allocation of 1000000 items exceeds maximum of 4000".toList = true ∧
    listSub "4000".toList
      "the requested allocation of 1000000 items exceeds maximum of 4000".toList = true := by
  refine ⟨?_, by decide, ?_, by decide, by decide⟩
  · decide
  · decide

/-- Decoding distributes over a valid-pair prefix: the bytes of the prefix are
emitted first and the rest of the input is decoded independently. -/
theorem decodePairs_append (l : List Char) :
    ∀ pre, validHexPairs pre = true →
      hex.decodePairs (pre ++ l) =
        (pairVals pre ++ (hex.decodePairs l).1, (hex.decodePairs l).2) := by
  intro pre
  induction pre using validHexPairs.induct with
  | case1 => simp [hex.decodePairs, pairVals]
  | case2 c => intro h; simp [validHexPairs] at h
  | case3 c1 c2 r ih =>
    intro h
    simp only [validHexPairs, Bool.and_eq_true] at h
    obtain ⟨⟨h1, h2⟩, hr⟩ := h
    simp [hex.decodePairs, pairVals, h1, h2, ih hr]

/-- C5: for every hex string of odd length, decoder construction itself fails
(no byte is ever decoded) with a length-mismatch error carrying the exact
actual length, and that error unifies to an invalid-length serde error
carrying the same length. -/
theorem c5_odd_length_rejected (s : List Char) (h : s.length % 2 = 1) :
    hex.Decoder.new s = .error ⟨⟨s.length⟩⟩ ∧
    hex.DecodeInitError.into_de_error ⟨⟨s.length⟩⟩ =
      .invalidLength s.length "an even number of ASCII-encoded hex digits" := by
  refine ⟨?_, rfl⟩
  simp [hex.Decoder.new, hex.HexToBytesIter.new, h]

/-- Witness for C5 at the odd-length input "abc". -/
theorem c5_odd_length_rejected_witness :
    "abc".toList.length % 2 = 1 ∧
    (hex.Decoder.new "abc".toList = .error ⟨⟨"abc".toList.length⟩⟩ ∧
     hex.DecodeInitError.into_de_error ⟨⟨"abc".toList.length⟩⟩ =
       .invalidLength "abc".toList.length "an even number of ASCII-encoded hex digits") :=
  ⟨by decide, c5_odd_length_rejected "abc".toList (by decide)⟩

/-- C6: on an even-length input with a character that is not an ASCII hex
digit, the decoder yields the bytes of the valid pairs before that point in
input order, then fails exactly once with the offending character (the first
character of the failing pair is checked before the second), decoding no
further bytes; the error carries the character as its original code point,
reported as a character when it is ASCII. -/
theorem c6_bad_char_stop (pre : List Char) (c1 c2 : Char) (rest : List Char)
    (hpre : validHexPairs pre = true)
    (hbad : isHexDigitChar c1 = false ∨
      (isHexDigitChar c1 = true ∧ isHexDigitChar c2 = false)) :
    hex.decodePairs (pre ++ c1 :: c2 :: rest) =
      (pairVals pre, some (if isHexDigitChar c1 then c2 else c1)) ∧
    (∀ _ : (if isHexDigitChar c1 then c2 else c1).toNat < 128,
      hex.DecodeError.into_de_error ⟨⟨if isHexDigitChar c1 then c2 else c1⟩⟩ =
        .invalidValue (.char (if isHexDigitChar c1 then c2 else c1))
          "an ASCII-encoded hex digit") := by
  constructor
  · rw [decodePairs_append (c1 :: c2 :: rest) pre hpre]
    rcases hbad with h1 | ⟨h1, h2⟩
    · simp [hex.decodePairs, h1]
    · simp [hex.decodePairs, h1, h2]
  · intro hc
    simp [hex.DecodeError.into_de_error, hc]

theorem hexChars_cons (cs : HexCase) (b : Nat) (bs : List Nat) :
    hexChars cs (b :: bs) = byteToHexIn cs b ++ hexChars cs bs := by
  simp [hexChars]

theorem hexChars_append (cs : HexCase) (l1 l2 : List Nat) :
    hexChars cs (l1 ++ l2) = hexChars cs l1 ++ hexChars cs l2 := by
  simp [hexChars]

theorem hexChars_length (cs : HexCase) (bs : List Nat) :
    (hexChars cs bs).length = 2 * bs.length := by
  induction bs with
  | nil => rfl
  | cons b bs ih =>
    rw [hexChars_cons]
    simp only [List.length_append, List.length_cons, ih, byteToHexIn, List.length_cons,
      List.length_nil]
    omega

/-- Core invariant of `encode_chunk`: starting from a buffer of even length
within capacity, the concatenation sink-text ++ buffer grows by exactly the
hex rendering of the consumed bytes, the buffer stays even and within
capacity, and every newly flushed piece has even length within capacity. -/
theorem encodeChunkAux_spec (cs : HexCase) :
    ∀ fuel (bytes : List Nat) (st : EncState), bytes.length ≤ fuel →
      st.buf.length % 2 = 0 → st.buf.length ≤ HEX_BUF_SIZE →
      (encodeChunkAux cs fuel st bytes).pieces.flatten ++
          (encodeChunkAux cs fuel st bytes).buf =
        st.pieces.flatten ++ st.buf ++ hexChars cs bytes ∧
      (encodeChunkAux cs fuel st bytes).buf.length % 2 = 0 ∧
      (encodeChunkAux cs fuel st bytes).buf.length ≤ HEX_BUF_SIZE ∧
      ∀ p ∈ (encodeChunkAux cs fuel st bytes).pieces,
        p ∈ st.pieces ∨ (p.length % 2 = 0 ∧ p.length ≤ HEX_BUF_SIZE) := by
  intro fuel
  induction fuel with
  | zero =>
    intro bytes st hf he hc
    cases bytes with
    | nil =>
      simp [encodeChunkAux, hexChars, he, hc]
      exact fun p hp => Or.inl hp
    | cons b bs => simp at hf
  | succ fuel ih =>
    intro bytes st hf he hc
    cases bytes with
    | nil =>
      simp [encodeChunkAux, hexChars, he, hc]
      exact fun p hp => Or.inl hp
    | cons b bs =>
      set st1 := if st.buf.length = HEX_BUF_SIZE then flushEnc st else st with hst1
      have hstep : encodeChunkAux cs (fuel + 1) st (b :: bs) =
          if (putBytesMin cs st1 (b :: bs)).2.length < (b :: bs).length
            then encodeChunkAux cs fuel (putBytesMin cs st1 (b :: bs)).1
              (putBytesMin cs st1 (b :: bs)).2
            else st1 := by
        simp only [encodeChunkAux]
      have h1 : st1.pieces.flatten ++ st1.buf = st.pieces.flatten ++ st.buf := by
        rw [hst1]
        by_cases hfull : st.buf.length = HEX_BUF_SIZE
        · simp [hfull, flushEnc]
        · simp [hfull]
      have h2 : st1.buf.length % 2 = 0 := by
        rw [hst1]
        by_cases hfull : st.buf.length = HEX_BUF_SIZE
        · simp [hfull, flushEnc]
        · simpa [hfull] using he
      have h3 : st1.buf.length < HEX_BUF_SIZE := by
        rw [hst1]
        by_cases hfull : st.buf.length = HEX_BUF_SIZE
        · simp [hfull, flushEnc, HEX_BUF_SIZE]
        · simp only [hfull, if_false]
          omega
      have h4 : ∀ p ∈ st1.pieces,
          p ∈ st.pieces ∨ (p.length % 2 = 0 ∧ p.length ≤ HEX_BUF_SIZE) := by
        rw [hst1]
        by_cases hfull : st.buf.length = HEX_BUF_SIZE
        · intro p hp
          simp only [hfull, if_true, flushEnc, List.mem_append, List.mem_singleton] at hp
          rcases hp with hp | hp
          · exact Or.inl hp
          · exact Or.inr ⟨hp ▸ he, hp ▸ (le_of_eq hfull)⟩
        · intro p hp
          simp only [hfull, if_false] at hp
          exact Or.inl hp
      set n := min ((HEX_BUF_SIZE - st1.buf.length) / 2) (b :: bs).length with hn
      have hlen : (b :: bs).length = bs.length + 1 := by simp
      have hn1 : 1 ≤ n := by
        rw [hn]
        have : HEX_BUF_SIZE = 512 := rfl
        omega
      have hnle : n ≤ (b :: bs).length := by rw [hn]; omega
      have hput1 : (putBytesMin cs st1 (b :: bs)).1 =
          { st1 with buf := st1.buf ++ hexChars cs ((b :: bs).take n) } := rfl
      have hput2 : (putBytesMin cs st1 (b :: bs)).2 = (b :: bs).drop n := rfl
      have hdroplen : ((b :: bs).drop n).length = (b :: bs).length - n := by
        simp [List.length_drop]
      have hguard : (putBytesMin cs st1 (b :: bs)).2.length < (b :: bs).length := by
        rw [hput2, hdroplen]
        omega
      rw [hstep, if_pos hguard, hput1, hput2]
      have hbuflen : (st1.buf ++ hexChars cs ((b :: bs).take n)).length =
          st1.buf.length + 2 * n := by
        rw [List.length_append, hexChars_length, List.length_take]
        omega
      have heven' : (st1.buf ++ hexChars cs ((b :: bs).take n)).length % 2 = 0 := by
        rw [hbuflen]; omega
      have hcap' : (st1.buf ++ hexChars cs ((b :: bs).take n)).length ≤ HEX_BUF_SIZE := by
        rw [hbuflen, hn]
        have : HEX_BUF_SIZE = 512 := rfl
        omega
      have hfuel' : ((b :: bs).drop n).length ≤ fuel := by
        rw [hdroplen]; omega
      obtain ⟨ihj, ihe, ihc, ihp⟩ :=
        ih ((b :: bs).drop n) { st1 with buf := st1.buf ++ hexChars cs ((b :: bs).take n) }
          hfuel' heven' hcap'
      refine ⟨?_, ihe, ihc, ?_⟩
      · rw [ihj]
        show st1.pieces.flatten ++ (st1.buf ++ hexChars cs ((b :: bs).take n)) ++
            hexChars cs ((b :: bs).drop n) = _
        rw [← List.append_assoc st1.pieces.flatten st1.buf, h1,
          List.append_assoc (st.pieces.flatten ++ st.buf), ← hexChars_append,
          List.take_append_drop]
      · intro p hp
        rcases ihp p hp with hp' | hp'
        · exact h4 p hp'
        · exact Or.inr hp'

/-- The fold of `encode_chunk` over the native encoder's write calls keeps the
invariant and accumulates the hex rendering of all bytes written. -/
theorem foldl_encodeChunk_spec (cs : HexCase) :
    ∀ (chunks : List (List Nat)) (st : EncState),
      st.buf.length % 2 = 0 → st.buf.length ≤ HEX_BUF_SIZE →
      (chunks.foldl (encodeChunk cs) st).pieces.flatten ++
          (chunks.foldl (encodeChunk cs) st).buf =
        st.pieces.flatten ++ st.buf ++ hexChars cs chunks.flatten ∧
      (chunks.foldl (encodeChunk cs) st).buf.length % 2 = 0 ∧
      (chunks.foldl (encodeChunk cs) st).buf.length ≤ HEX_BUF_SIZE ∧
      ∀ p ∈ (chunks.foldl (encodeChunk cs) st).pieces,
        p ∈ st.pieces ∨ (p.length % 2 = 0 ∧ p.length ≤ HEX_BUF_SIZE) := by
  intro chunks
  induction chunks with
  | nil =>
    intro st he hc
    simp [hexChars, he, hc]
    exact fun p hp => Or.inl hp
  | cons c rest ih =>
    intro st he hc
    obtain ⟨hj, he', hc', hp⟩ := encodeChunkAux_spec cs c.length c st le_rfl he hc
    rw [show encodeChunkAux cs c.length st c = encodeChunk cs st c from rfl]
      at hj he' hc' hp
    obtain ⟨hj2, he2, hc2, hp2⟩ := ih (encodeChunk cs st c) he' hc'
    refine ⟨?_, he2, hc2, ?_⟩
    · simp only [List.foldl_cons]
      rw [hj2, hj, List.append_assoc (st.pieces.flatten ++ st.buf), ← hexChars_append,
        ← List.flatten_cons]
    · intro p hp'
      simp only [List.foldl_cons] at hp'
      rcases hp2 p hp' with h | h
      · exact hp p h
      · exact Or.inr h

/-- C7: the text produced by the hex encoder is independent of how the bytes
are split across `encode_chunk` calls — any chunking (including chunks larger
than the whole buffer, flushed multiple times within one call) produces the
sink text of a single unchunked call, namely the hex rendering of the
concatenated bytes — and every piece handed to the sink by a flush has even
length, so no byte's two hex characters are ever split across a flush
boundary. -/
theorem c7_chunking_independent (cs : HexCase) (chunks : List (List Nat)) :
    serializeHRChars cs chunks = serializeHRChars cs [chunks.flatten] ∧
    serializeHRChars cs chunks = hexChars cs chunks.flatten ∧
    ∀ p ∈ (encodePipeline cs chunks).pieces, p.length % 2 = 0 := by
  have key : ∀ ch : List (List Nat), serializeHRChars cs ch = hexChars cs ch.flatten ∧
      ∀ p ∈ (encodePipeline cs ch).pieces, p.length % 2 = 0 := by
    intro ch
    obtain ⟨hj, he, _, hp⟩ := foldl_encodeChunk_spec cs ch ⟨[], []⟩ rfl (by
      simp [HEX_BUF_SIZE])
    constructor
    · show (encodePipeline cs ch).pieces.flatten = _
      simp only [encodePipeline, flushEnc, List.flatten_append] at *
      simpa using hj
    · intro p hp'
      simp only [encodePipeline, flushEnc, List.mem_append, List.mem_singleton] at hp'
      rcases hp' with h | h
      · rcases hp p h with h' | h'
        · simp at h'
        · exact h'.1
      · exact h ▸ he
  obtain ⟨h1, h2⟩ := key chunks
  obtain ⟨h1', _⟩ := key [chunks.flatten]
  refine ⟨?_, h1, h2⟩
  rw [h1, h1']
  simp

/-- C8: `flush` emits the entire buffered text to the sink and clears the
buffer, never retaining data across a flush; the buffer never exceeds its
capacity (it is always flushed before it would overflow); and the pipeline
performs its single final flush even for a zero-byte encode, so an empty
object still produces (empty) output via exactly one sink write. -/
theorem c8_flush_discipline (cs : HexCase) (st : EncState) (bytes : List Nat)
    (heven : st.buf.length % 2 = 0) (hcap : st.buf.length ≤ HEX_BUF_SIZE) :
    flushEnc st = ⟨st.pieces ++ [st.buf], []⟩ ∧
    (encodeChunk cs st bytes).buf.length ≤ HEX_BUF_SIZE ∧
    (∀ p ∈ (encodeChunk cs st bytes).pieces,
      p ∈ st.pieces ∨ p.length ≤ HEX_BUF_SIZE) ∧
    encodePipeline cs [] = ⟨[[]], []⟩ ∧
    serializeHRChars cs [] = [] := by
  obtain ⟨_, _, hc, hp⟩ := encodeChunkAux_spec cs bytes.length bytes st le_rfl heven hcap
  refine ⟨rfl, hc, ?_, rfl, rfl⟩
  intro p hp'
  rcases hp p hp' with h | h
  · exact Or.inl h
  · exact Or.inr h.2

/-- Witness for C8 at the lower-case strategy, a fresh encoder and the bytes
`[0, 1, 2]`. -/
theorem c8_flush_discipline_witness :
    flushEnc ⟨[], []⟩ = ⟨[] ++ [[]], []⟩ ∧
    (encodeChunk .lower ⟨[], []⟩ [0, 1, 2]).buf.length ≤ HEX_BUF_SIZE ∧
    (∀ p ∈ (encodeChunk .lower (⟨[], []⟩ : EncState) [0, 1, 2]).pieces,
      p ∈ ([] : List (List Char)) ∨ p.length ≤ HEX_BUF_SIZE) ∧
    encodePipeline .lower [] = ⟨[[]], []⟩ ∧
    serializeHRChars .lower [] = [] :=
  c8_flush_discipline .lower ⟨[], []⟩ [0, 1, 2] (by decide) (by decide)

theorem hexDigitLower_good :
    ∀ d < 16, isHexDigitChar (hexDigitLower d) = true ∧ hexVal (hexDigitLower d) = d := by
  decide

/-- The hex decoder inverts the lower-case hex encoder on byte sequences. -/
theorem decode_hexChars_lower (bs : List Nat) (h : ∀ b ∈ bs, b < 256) :
    hex.decodePairs (hexChars .lower bs) = (bs, none) := by
  induction bs with
  | nil => rfl
  | cons b tl ih =>
    have hb : b < 256 := h b (List.mem_cons_self b tl)
    have h1 := hexDigitLower_good (b / 16 % 16) (by omega)
    have h2 := hexDigitLower_good (b % 16) (by omega)
    have htl := ih (fun x hx => h x (List.mem_cons_of_mem b hx))
    rw [hexChars_cons]
    show hex.decodePairs (hexDigitLower (b / 16 % 16) :: hexDigitLower (b % 16) ::
      hexChars .lower tl) = _
    simp only [hex.decodePairs, h1.1, h1.2, h2.1, h2.2, htl, if_true]
    rw [show b / 16 % 16 * 16 + b % 16 = b by omega]

/-- `BinWriter` accumulates the written bytes element by element. -/
theorem binWriter_foldl (chunks : List (List Nat)) :
    ∀ st : BinWriterSt, chunks.foldl BinWriter.write_all st = ⟨st.elems ++ chunks.flatten⟩ := by
  induction chunks with
  | nil => intro st; cases st; simp
  | cons c rest ih =>
    intro st
    simp [BinWriter.write_all, ih, List.append_assoc]

theorem serializeBinElems_eq (chunks : List (List Nat)) :
    serializeBinElems chunks = chunks.flatten := by
  simp [serializeBinElems, binWriter_foldl]

/-- The sink text of the human-readable serialize path is the hex rendering
of all bytes the native encoder wrote. -/
theorem serializeHRChars_eq (cs : HexCase) (chunks : List (List Nat)) :
    serializeHRChars cs chunks = hexChars cs chunks.flatten := by
  obtain ⟨hj, _, _, _⟩ :=
    foldl_encodeChunk_spec cs chunks ⟨[], []⟩ rfl (Nat.zero_le _)
  show (encodePipeline cs chunks).pieces.flatten = _
  simp only [encodePipeline, flushEnc, List.flatten_append] at *
  simpa using hj

/-- C1: deserializing the output of serialize yields the value again, on both
paths. If the native encode/decode pair are mutual inverses at `v` (decode
consumes exactly the encoding of `v` and returns `v`), then however the
native encoder splits its output into write calls, decoding the hex string
produced on the human-readable path returns `v`, and decoding the byte
sequence produced on the binary path returns `v`. -/
theorem c1_roundtrip {α : Type} (enc : α → List Nat)
    (dec : List Nat → Except ParseError (α × List Nat)) (v : α)
    (chunksHR chunksBin : List (List Nat))
    (hrange : ∀ b ∈ enc v, b < 256)
    (hdec : dec (enc v) = .ok (v, []))
    (hhr : chunksHR.flatten = enc v) (hbin : chunksBin.flatten = enc v) :
    HRVisitor.visit_str dec (serializeHRChars .lower chunksHR) = .ok v ∧
    BinVisitor.visit_seq dec (serializeBinElems chunksBin) = .ok v := by
  constructor
  · rw [serializeHRChars_eq, hhr]
    have heven : (hexChars .lower (enc v)).length % 2 = 0 := by
      rw [hexChars_length]; omega
    have hnew : hex.Decoder.new (hexChars .lower (enc v)) =
        .ok (hexChars .lower (enc v)) := by
      simp [hex.Decoder.new, hex.HexToBytesIter.new, heven]
    simp [HRVisitor.visit_str, hnew, decode_hexChars_lower (enc v) hrange,
      IterReader.decode, hdec]
  · rw [serializeBinElems_eq, hbin]
    simp [BinVisitor.visit_seq, IterReader.decode, hdec]

/-- Witness for C1 with the one-byte codec at the value 171 (0xab). -/
theorem c1_roundtrip_witness :
    HRVisitor.visit_str decOneByte (serializeHRChars .lower [[171]]) = .ok 171 ∧
    BinVisitor.visit_seq decOneByte (serializeBinElems [[171]]) = .ok 171 :=
  c1_roundtrip encOneByte decOneByte 171 [[171]] [[171]] (by decide) rfl rfl rfl

/-- C4: whenever the native decode succeeds but leaves an unconsumed tail of
bytes, the binary deserialize path fails with the "more bytes than expected"
error rather than silently ignoring the leftover input. -/
theorem c4_unconsumed_tail {α : Type}
    (dec : List Nat → Except ParseError (α × List Nat)) (bytes : List Nat)
    (v : α) (t : Nat) (ts : List Nat) (h : dec bytes = .ok (v, t :: ts)) :
    BinVisitor.visit_seq dec bytes = .error (.custom "got more bytes than expected") := by
  simp [BinVisitor.visit_seq, IterReader.decode, h, DecodeError.unify]

/-- Witness for C4: the one-byte decoder on the two-byte input `[7, 9]` (one
extra trailing byte after a structurally complete encoding). -/
theorem c4_unconsumed_tail_witness :
    decOneByte [7, 9] = .ok (7, [9]) ∧
    BinVisitor.visit_seq decOneByte [7, 9] =
      .error (.custom "got more bytes than expected") :=
  ⟨rfl, c4_unconsumed_tail decOneByte [7, 9] 7 9 [] rfl⟩

/-- C3 fails as stated: on the binary path the `panic!` arms of
`With::serialize` are unconditional, so in a release build (`debug = false`)
the mismatch "native encoder succeeded while the sink recorded a failure"
still aborts the process instead of degrading to error propagation. -/
theorem c3_counterexample :
    With.serializeBin false none true true = .aborts ∧
    With.serializeBin false none true true ≠ .serErr := by
  exact ⟨rfl, by decide⟩

/-- C3 amended: any mismatch between the native encoder's reported outcome
and the sink's recorded outcome aborts the process in debug builds on both
paths; in release builds the human-readable path degrades to best-effort
error propagation (it never aborts), while the binary-sequence path aborts
on a mismatch in release builds as well. -/
theorem c3_mismatch_aborts :
    (∀ (debug : Bool) (e : Option IoErrM) (recorded endOk : Bool),
      (e = none ∧ recorded = true) ∨ (e ≠ none ∧ recorded = false) →
      With.serializeBin debug e recorded endOk = .aborts) ∧
    (∀ (e : Option IoErrM) (was_error flushOk : Bool),
      (e = none ∧ was_error = true) ∨ (e ≠ none ∧ was_error = false) →
      DisplayWrapper.fmt true e was_error flushOk = .aborts) ∧
    (∀ (e : Option IoErrM) (was_error flushOk : Bool),
      DisplayWrapper.fmt false e was_error flushOk ≠ .aborts) := by
  refine ⟨?_, ?_, ?_⟩
  · rintro debug e rec endOk (⟨rfl, rfl⟩ | ⟨hne, rfl⟩)
    · rfl
    · cases e with
      | none => exact absurd rfl hne
      | some x => rfl
  · rintro e was flushOk (⟨rfl, rfl⟩ | ⟨hne, rfl⟩)
    · rfl
    · cases e with
      | none => exact absurd rfl hne
      | some x => simp [DisplayWrapper.fmt]
  · intro e was flushOk
    cases e with
    | some x => simp [DisplayWrapper.fmt]
    | none => cases flushOk <;> simp [DisplayWrapper.fmt]

/-- Witness for C3's amended statement at concrete mismatch states. -/
theorem c3_mismatch_aborts_witness :
    With.serializeBin true none true true = .aborts ∧
    DisplayWrapper.fmt true (some ⟨.other, false⟩) false true = .aborts ∧
    DisplayWrapper.fmt false (some ⟨.other, false⟩) false true ≠ .aborts :=
  ⟨c3_mismatch_aborts.1 true none true true (Or.inl ⟨rfl, rfl⟩),
   c3_mismatch_aborts.2.1 (some ⟨.other, false⟩) false true
     (Or.inr ⟨by simp, rfl⟩),
   c3_mismatch_aborts.2.2 (some ⟨.other, false⟩) false true⟩

/-- A prefix of writes whose downstream calls all succeed passes through the
adapter without changing the (unset) flag. -/
theorem run_before_failure (rest : List Bool) :
    ∀ pre, (∀ x ∈ pre, x = false) →
      ErrorTrackingWriter.run true false (pre ++ rest) =
        ErrorTrackingWriter.run true false rest := by
  intro pre
  induction pre with
  | nil => intro _; rfl
  | cons x pre ih =>
    intro h
    have hx : x = false := h x (List.mem_cons_self x pre)
    subst hx
    show ErrorTrackingWriter.run true false (false :: (pre ++ rest)) = _
    simpa [ErrorTrackingWriter.run, ErrorTrackingWriter.write_str] using
      ih (fun y hy => h y (List.mem_cons_of_mem _ hy))

/-- C9: discipline of the debug-build "had error" flag across a serialize
call: the flag is set the first time the downstream sink reports a failure
and is never reset; a further write attempted through the adapter after a
recorded failure trips `assert_no_error` (the flag is asserted false before
every subsequent write); and the adapter can only report a failure upward
with the flag set — `assert_was_error` aborts otherwise — so no sink failure
is silently dropped or duplicated. -/
theorem c9_error_flag_discipline (flag : Bool) (pre rest : List Bool) (d : Bool)
    (hpre : ∀ x ∈ pre, x = false) :
    ErrorTrackingWriter.run true false (pre ++ [true]) = some true ∧
    ErrorTrackingWriter.run true false (pre ++ true :: d :: rest) = none ∧
    (∀ ds flag', ErrorTrackingWriter.run true flag ds = some flag' →
      flag = true → flag' = true) ∧
    (IoWrapper.reportWriteErr true flag = .err → flag = true) ∧
    IoWrapper.reportWriteErr true false = .aborted := by
  refine ⟨?_, ?_, ?_, ?_, rfl⟩
  · rw [run_before_failure [true] pre hpre]
    rfl
  · rw [run_before_failure (true :: d :: rest) pre hpre]
    rfl
  · intro ds flag' h hf
    subst hf
    cases ds with
    | nil =>
      simp only [ErrorTrackingWriter.run, Option.some.injEq] at h
      exact h.symm
    | cons d' ds =>
      simp [ErrorTrackingWriter.run, ErrorTrackingWriter.write_str] at h
  · intro h
    cases flag with
    | false => simp [IoWrapper.reportWriteErr] at h
    | true => rfl

/-- Witness for C9 at a concrete run: one successful write, then a failing
one; then a write after the failure; and the upward report states. -/
theorem c9_error_flag_discipline_witness :
    ErrorTrackingWriter.run true false ([false] ++ [true]) = some true ∧
    ErrorTrackingWriter.run true false ([false] ++ true :: false :: []) = none ∧
    (∀ ds flag', ErrorTrackingWriter.run true true ds = some flag' →
      true = true → flag' = true) ∧
    (IoWrapper.reportWriteErr true true = .err → true = true) ∧
    IoWrapper.reportWriteErr true false = .aborted :=
  c9_error_flag_discipline true [false] [] false (by decide)

/-- C10: the byte-sink flush exposed to the native encoder is a no-op on both
adapter paths: for every adapter state it returns success and leaves the
state — internal text buffer, sink pieces, sequence elements — unchanged, so
buffered text is emitted only by the bridge's own single final flush. -/
theorem c10_flush_noop_frame :
    (∀ st : EncState, IoWrapper.flush st = (.ok (), st)) ∧
    (∀ st : BinWriterSt, BinWriter.flush st = (.ok (), st)) :=
  ⟨fun _ => rfl, fun _ => rfl⟩

/-- Witness for C6 at the inputs "0g" (reports 'g') and "zz" (reports 'z'
once). -/
theorem c6_bad_char_stop_witness :
    (hex.decodePairs ([] ++ '0' :: 'g' :: []) =
      (pairVals [], some (if isHexDigitChar '0' then 'g' else '0')) ∧
     hex.decodePairs ([] ++ 'z' :: 'z' :: []) =
      (pairVals [], some (if isHexDigitChar 'z' then 'z' else 'z'))) ∧
    hex.decodePairs "0g".toList = ([], some 'g') ∧
    hex.decodePairs "zz".toList = ([], some 'z') :=
  ⟨⟨(c6_bad_char_stop [] '0' 'g' [] (by decide) (by decide)).1,
    (c6_bad_char_stop [] 'z' 'z' [] (by decide) (by decide)).1⟩,
   by decide, by decide⟩

end ConsensusSerde
